import Mathlib

/-
  Verification development for the image-hosting service
  (Flask + S3 + Redis; src/app.py, src/services.py,
  src/infrastructure/redis_client.py, src/infrastructure/s3_client.py).

  The Python source is shallowly embedded: pure helpers become Lean
  functions on `String`/`List Char`; the two backing stores (the Redis
  metadata index and the S3 object store) become an explicit state record
  threaded through each operation, together with a trace of the gateway
  calls the operation performs.  External collaborator behaviour that the
  repository only invokes (boto3 presigned URLs) is abstracted into an
  environment record of functions; repository-defined URL construction
  (`get_public_url`, `get_s3_url`) is embedded concretely.
-/

namespace ImageHosting

/-! ## Character classes (ASCII, by code point)

These spell out the regular-expression character classes appearing in
`Utils.sanitize_filename` (src/services.py lines 24-48). -/

def isUpperAZ (c : Char) : Bool := 65 ≤ c.toNat && c.toNat ≤ 90

def isLowerAZ (c : Char) : Bool := 97 ≤ c.toNat && c.toNat ≤ 122

def isDigit09 (c : Char) : Bool := 48 ≤ c.toNat && c.toNat ≤ 57

/-- The class `[A-Za-z0-9._-]` kept by `re.sub(r"[^A-Za-z0-9._-]+", "-", ...)`
(src/services.py line 37). -/
def keepChar (c : Char) : Bool :=
  isUpperAZ c || isLowerAZ c || isDigit09 c || c = '.' || c = '_' || c = '-'

/-- The characters removed from both ends by `.strip("-._")`
(src/services.py line 37). -/
def isStripChar (c : Char) : Bool := c = '-' || c = '.' || c = '_'

/-- The class `[a-z0-9]` kept by `re.sub(r"[^a-z0-9]", "", ...)`
(src/services.py line 45). -/
def isLowerAlnum (c : Char) : Bool := isLowerAZ c || isDigit09 c

/-- The character class `[a-z0-9_.-]` of the spec's stated output format
for normalized filenames. -/
def allowedChar (c : Char) : Bool :=
  isLowerAZ c || isDigit09 c || c = '.' || c = '_' || c = '-'

/-- ASCII lowercasing.  Models Python `str.lower()` at its two call sites in
`sanitize_filename`, where the argument is always ASCII (it has just been
encoded with `encode("ascii", "ignore")`), so only the `A`-`Z` case acts. -/
def pyLowerAscii (c : Char) : Char :=
  if isUpperAZ c then Char.ofNat (c.toNat + 32) else c

/-- ASCII compatibility decompositions, tabulated for the non-ASCII
characters exercised in this development.  Every right-hand side is ASCII,
mirroring that `encode("ascii", "ignore")` can only ever produce ASCII. -/
def nfkdAsciiTable : List (Char × List Char) :=
  [('Š', ['S']), ('š', ['s']), ('É', ['E']), ('é', ['e']),
   ('Å', ['A']), ('å', ['a']), ('ü', ['u']), ('ñ', ['n'])]

/-- Models `unicodedata.normalize("NFKD", value).encode("ascii", "ignore")`
per character (src/services.py lines 31-33): ASCII characters are kept
unchanged (NFKD is the identity on ASCII), a non-ASCII character is replaced
by the ASCII part of its compatibility decomposition (empty when it has
none, i.e. the character is dropped). -/
def asciiFoldChar (c : Char) : List Char :=
  if c.toNat < 128 then [c] else (nfkdAsciiTable.lookup c).getD []

/-- `normalize` inside `sanitize_filename` (src/services.py lines 31-33),
lifted to character lists. -/
def pyAsciiFold (l : List Char) : List Char := (l.map asciiFoldChar).flatten

/-- State machine for `re.sub(r"[^A-Za-z0-9._-]+", "-", s)`: every maximal
run of characters outside the class becomes a single `'-'`.  The flag
records whether we are inside such a run. -/
def subDashGo : Bool → List Char → List Char
  | _, [] => []
  | inRun, c :: rest =>
    if keepChar c then c :: subDashGo false rest
    else if inRun then subDashGo true rest
    else '-' :: subDashGo true rest

/-- `re.sub(r"[^A-Za-z0-9._-]+", "-", s)` (src/services.py line 37). -/
def subDash (l : List Char) : List Char := subDashGo false l

/-- Python `str.strip("-._")` (src/services.py line 37): remove the strip
characters from both ends. -/
def stripChars (l : List Char) : List Char :=
  ((l.dropWhile isStripChar).reverse.dropWhile isStripChar).reverse

def notDotSlash (c : Char) : Bool := !(c = '.') && !(c = '/')

/-- Models posix `os.path.splitext` (src/services.py line 28): split at the
last dot that comes after the last `/`, unless the basename up to that dot
consists only of dots (leading dots never start an extension).  Scanning the
reversal, the first character failing `notDotSlash` is the last dot or
slash of the input. -/
def splitextList (l : List Char) : List Char × List Char :=
  match l.reverse.dropWhile notDotSlash with
  | c :: nameRev =>
    if c = '.' then
      if (nameRev.takeWhile (fun d => !(d = '/'))).all (fun d => d = '.') then
        (l, [])
      else (nameRev.reverse, '.' :: (l.reverse.takeWhile notDotSlash).reverse)
    else (l, [])
  | [] => (l, [])

/-- `filename or "file"` (src/services.py line 27). -/
def pyOrFile (filename : String) : String :=
  if filename = "" then "file" else filename

/-- The base-name pipeline of `sanitize_filename` before the empty check
(src/services.py lines 28-37): split off the extension, NFKD-fold to ASCII,
collapse runs outside `[A-Za-z0-9._-]` to a single `-`, strip `-._` from
both ends, lowercase. -/
def preBase (filename : String) : List Char :=
  (stripChars (subDash (pyAsciiFold
    (splitextList (pyOrFile filename).data).1))).map pyLowerAscii

/-- The cleaned base name before truncation: the pipeline's output, with
the literal `file` substituted when empty (src/services.py lines 38-39). -/
def sanitizedBaseFull (filename : String) : List Char :=
  if preBase filename = [] then "file".data else preBase filename

/-- The cleaned base name after the `safe_name[:max_len]` truncation
(src/services.py line 41). -/
def sanitizedBase (filename : String) (max_len : Nat) : List Char :=
  (sanitizedBaseFull filename).take max_len

/-- The extension pipeline of `sanitize_filename` (src/services.py lines
44-45): NFKD-fold to ASCII, lowercase, keep only `[a-z0-9]`. -/
def preExt (filename : String) : List Char :=
  ((pyAsciiFold (splitextList (pyOrFile filename).data).2).map
    pyLowerAscii).filter isLowerAlnum

/-- The cleaned extension: re-attach a leading dot when anything remains
(src/services.py line 46). -/
def sanitizedExt (filename : String) : List Char :=
  if preExt filename = [] then [] else '.' :: preExt filename

/-- `Utils.sanitize_filename` (src/services.py lines 24-48).  The call sites
in the repository use the default `max_len = 120`; the parameter is kept
explicit. -/
def sanitize_filename (filename : String) (max_len : Nat) : String :=
  String.mk (sanitizedBase filename max_len ++ sanitizedExt filename)

/-! ## Data model

The Redis metadata index stores one hash `img:{iid}` per image and one
sorted set `user:{uid}:images` per owner; the S3 store holds objects by
key.  Both stores become one explicit state record.  Hashes are modelled
as association lists, the sorted set as the newest-first id list that
`zrevrange` returns. -/

/-- The image hash written by `RedisClient.store_image`
(src/infrastructure/redis_client.py lines 72-82).  The source field
`private` is a Lean keyword and is embedded as `private_flag`; `key` and
`url` are `Option` because the hash is duck-typed and a reader uses
`.get(...)`, which can find the field absent. -/
structure ImageRecord where
  id : String
  owner_uid : String
  key : Option String
  url : Option String
  filename : String
  mime : String
  private_flag : Nat
  created_at : Nat
  views : Nat
deriving DecidableEq, Repr

/-- Python truthiness of an optional string field: `None` and `""` are
falsy. -/
def truthyOpt : Option String → Bool
  | none => false
  | some s => !(s = "")

/-- The combined state of the two backing stores. -/
structure AppState where
  images : List (String × ImageRecord)
  user_images : List (String × List String)
  s3objects : List String
deriving DecidableEq, Repr

def lookupEntry {α : Type} : List (String × α) → String → Option α
  | [], _ => none
  | (k, v) :: rest, k0 => if k = k0 then some v else lookupEntry rest k0

/-- Upsert for an association list (`HSET` of a whole mapping replaces every
field of our records, hence a full-record update). -/
def setEntry {α : Type} (l : List (String × α)) (k0 : String) (v : α) :
    List (String × α) :=
  (k0, v) :: l.filter (fun p => !(p.1 = k0))

/-- `DEL` of a hash key. -/
def removeEntry {α : Type} (l : List (String × α)) (k0 : String) :
    List (String × α) :=
  l.filter (fun p => !(p.1 = k0))

/-- `ZADD user:{uid}:images {iid: now()}` as observed through newest-first
reads: since the score is the current timestamp (maximal), the id moves to
the front, replacing any previous occurrence. -/
def zaddNewest (m : List (String × List String)) (uid iid : String) :
    List (String × List String) :=
  setEntry m uid (iid :: ((lookupEntry m uid).getD []).filter (fun j => !(j = iid)))

/-- `ZREM user:{uid}:images iid`. -/
def zremId (m : List (String × List String)) (uid iid : String) :
    List (String × List String) :=
  match lookupEntry m uid with
  | none => m
  | some l => setEntry m uid (l.filter (fun j => !(j = iid)))

/-- The gateway calls an operation performs, in order. -/
inductive GatewayEvent where
  | s3PresignUpload (key mime : String)
  | s3PresignDownload (key : String)
  | s3Delete (key : String)
  | redisGetImage (iid : String)
  | redisZRevRange (uid : String)
  | redisBatchGet (iids : List String)
  | redisStoreImage (iid owner : String)
  | redisDeleteImage (iid uid : String)
deriving DecidableEq, Repr

/-- Whether an event reads or writes the Metadata Index (Redis). -/
def GatewayEvent.touchesIndex : GatewayEvent → Bool
  | .redisGetImage _ => true
  | .redisZRevRange _ => true
  | .redisBatchGet _ => true
  | .redisStoreImage _ _ => true
  | .redisDeleteImage _ _ => true
  | _ => false

/-- Whether an event mutates either store. -/
def GatewayEvent.mutatesStore : GatewayEvent → Bool
  | .s3Delete _ => true
  | .redisStoreImage _ _ => true
  | .redisDeleteImage _ _ => true
  | _ => false

/-! ## Object Store Gateway -/

/-- External S3 behaviour the repository only invokes (boto3
`generate_presigned_url` for `put_object` / `get_object`), abstracted as
environment functions, plus the configured bucket name. -/
structure S3Env where
  bucket : String
  presignUpload : String → String → String
  presignDownload : String → String

/-- The characters `urllib.parse.quote` never encodes (letters, digits,
`_.-~`), plus here the `safe="/"` default of `quote`. -/
def quoteSafeChar (c : Char) : Bool :=
  isUpperAZ c || isLowerAZ c || isDigit09 c || c = '_' || c = '.' || c = '-' || c = '~'

def hexDigitUpper (n : Nat) : Char :=
  if n < 10 then Char.ofNat (48 + n) else Char.ofNat (55 + n)

/-- UTF-8 encoding of one character, as byte values. -/
def utf8Bytes (c : Char) : List Nat :=
  let n := c.toNat
  if n < 128 then [n]
  else if n < 2048 then [192 + n / 64, 128 + n % 64]
  else if n < 65536 then [224 + n / 4096, 128 + (n / 64) % 64, 128 + n % 64]
  else [240 + n / 262144, 128 + (n / 4096) % 64, 128 + (n / 64) % 64, 128 + n % 64]

def percentByte (b : Nat) : List Char :=
  ['%', hexDigitUpper (b / 16), hexDigitUpper (b % 16)]

/-- `urllib.parse.quote(key, safe="/")` (src/infrastructure/s3_client.py
line 46): percent-encode the UTF-8 bytes of every character outside the
safe set. -/
def pyQuoteSlash (s : String) : String :=
  String.mk ((s.data.map (fun c =>
    if quoteSafeChar c || c = '/' then [c]
    else ((utf8Bytes c).map percentByte).flatten)).flatten)

/-- `S3Client.get_public_url` (src/infrastructure/s3_client.py lines
41-47). -/
def get_public_url (bucket key : String) : String :=
  "https://" ++ bucket ++ ".s3.amazonaws.com/" ++ pyQuoteSlash key

/-- `get_s3_url` (src/app.py lines 41-42, src/infrastructure/s3_client.py
lines 37-39): the store-internal `s3://` reference. -/
def get_s3_url (bucket key : String) : String :=
  "s3://" ++ bucket ++ "/" ++ key

/-! ## Upload Coordinator -/

structure UploadHandle where
  iid : String
  key : String
  filename : String
  presigned_url : String
deriving DecidableEq, Repr

/-- `ImageService.initiate_upload` (src/services.py lines 120-143).  The
fresh `uuid4().hex[:12]` is passed in as `hex` (an external source of
randomness); `sanitize_filename` is called with its default
`max_len = 120`, as at the source call site. -/
def initiate_upload (env : S3Env) (uid filename mime_type hex : String)
    (s : AppState) : UploadHandle × AppState × List GatewayEvent :=
  let safe_filename := sanitize_filename filename 120
  let iid := "img_" ++ hex
  let key := "uploads/" ++ uid ++ "/" ++ iid ++ "/" ++ safe_filename
  let presigned_url := env.presignUpload key mime_type
  ({ iid := iid, key := key, filename := safe_filename,
     presigned_url := presigned_url },
   s, [.s3PresignUpload key mime_type])

/-- The record written by `RedisClient.store_image`
(src/infrastructure/redis_client.py lines 72-82): `private` is always `1`
and `views` always `0` in the stored mapping. -/
def storedImageRecord (iid owner_uid key url filename mime_type : String)
    (created_at : Nat) : ImageRecord :=
  { id := iid, owner_uid := owner_uid, key := some key, url := some url,
    filename := filename, mime := mime_type, private_flag := 1,
    created_at := created_at, views := 0 }

/-- `RedisClient.store_image` (src/infrastructure/redis_client.py lines
55-87): one pipeline writing the image hash and inserting the id into the
owner's sorted set with score `created_at`. -/
def store_image (s : AppState) (iid owner_uid key url filename mime_type : String)
    (created_at : Nat) : AppState :=
  { s with
    images := setEntry s.images iid
      (storedImageRecord iid owner_uid key url filename mime_type created_at),
    user_images := zaddNewest s.user_images owner_uid iid }

structure FinalizeResult where
  id : String
  url : String
deriving DecidableEq, Repr

/-- `ImageService.finalize_upload` (src/services.py lines 145-163); `now()`
is passed in as `t`.  The stored reference is the public URL. -/
def finalize_upload (env : S3Env) (uid iid key filename mime_type : String)
    (t : Nat) (s : AppState) : FinalizeResult × AppState × List GatewayEvent :=
  let public_url := get_public_url env.bucket key
  let s1 := store_image s iid uid key public_url filename mime_type t
  ({ id := iid, url := public_url }, s1, [.redisStoreImage iid uid])

/-- A JSON request body for the `upload/complete` endpoint: the four fields
the handler reads via `req_data.get(...)`, plus an `owner` field a client
may supply in the body — the handler contains no `req_data.get("owner")`,
so the field is never read. -/
structure CompleteBody where
  iid : Option String
  key : Option String
  filename : Option String
  mime_type : Option String
  owner : Option String
deriving DecidableEq, Repr

inductive CompleteResult where
  | auth_error
  | validation_error
  | created (id : String) (url : String)
deriving DecidableEq, Repr

/-- `complete_upload` route (src/app.py lines 117-149): the owner identity
comes from the API key (`auth` is `require_api_key`'s result);
`not all([iid, key, filename, mime_type])` rejects any missing or empty
field; then one pipeline writes the image hash — with `owner_uid` the
authenticated uid and the stored `url` the internal `s3://` reference — and
the owner's sorted-set entry.  `now()` is passed as `t`. -/
def complete_upload (env : S3Env) (auth : Option String) (body : CompleteBody)
    (t : Nat) (s : AppState) : CompleteResult × AppState × List GatewayEvent :=
  match auth with
  | none => (.auth_error, s, [])
  | some uid =>
    match body.iid, body.key, body.filename, body.mime_type with
    | some iid, some key, some filename, some mime_type =>
      if iid = "" || key = "" || filename = "" || mime_type = "" then
        (.validation_error, s, [])
      else
        let s1 := store_image s iid uid key (get_s3_url env.bucket key)
          filename mime_type t
        (.created iid ("/api/v1/image/" ++ iid), s1, [.redisStoreImage iid uid])
    | _, _, _, _ => (.validation_error, s, [])

/-! ## Gallery Resolver -/

/-- `RedisClient.get_user_images` (src/infrastructure/redis_client.py lines
93-95): `zrevrange(user:{uid}:images, 0, limit - 1)`; the redis stop index
`-1` (i.e. `limit = 0`) denotes the end of the set. -/
def get_user_images (s : AppState) (uid : String) (limit : Nat) : List String :=
  let l := (lookupEntry s.user_images uid).getD []
  if limit = 0 then l else l.take limit

/-- `RedisClient.get_images_batch` (src/infrastructure/redis_client.py
lines 97-108): one `hgetall` per id, in input order; an absent hash comes
back empty (`none`).  The early return on an empty id list coincides with
mapping over `[]`. -/
def get_images_batch (s : AppState) (iids : List String) :
    List (Option ImageRecord) :=
  iids.map (fun iid => lookupEntry s.images iid)

/-- Python `str.startswith`, by characters. -/
def pyStartsWith (s pre : String) : Bool := pre.data.isPrefixOf s.data

/-- Whether `get_user_gallery` considers a stored URL unusable: the source
condition `not url or url.startswith("s3://") or "#" in url`
(src/services.py line 183). -/
def unusableUrl : Option String → Bool
  | none => true
  | some u => u = "" || pyStartsWith u "s3://" || u.data.contains '#'

/-- The per-record repair of `ImageService.get_user_gallery`
(src/services.py lines 179-188): when a (truthy) key exists and the URL is
unusable, rebuild it via `get_public_url`; when the URL is still missing,
fall back to the app-proxy path. -/
def repairItem (bucket : String) (data : ImageRecord) : ImageRecord :=
  let d1 :=
    match data.key with
    | some k =>
      if !(k = "") && unusableUrl data.url then
        { data with url := some (get_public_url bucket k) }
      else data
    | none => data
  if truthyOpt d1.url then d1
  else { d1 with url := some ("/api/v1/image/" ++ d1.id) }

/-- The `for data in results` loop of `get_user_gallery` (src/services.py
lines 174-190): absent entries are skipped, present ones repaired, in
order. -/
def cleanItems (bucket : String) : List (Option ImageRecord) → List ImageRecord
  | [] => []
  | none :: rest => cleanItems bucket rest
  | some d :: rest => repairItem bucket d :: cleanItems bucket rest

/-- `ImageService.get_user_gallery` (src/services.py lines 165-192). -/
def get_user_gallery (env : S3Env) (uid : String) (s : AppState) :
    List ImageRecord × AppState × List GatewayEvent :=
  let iids := get_user_images s uid 50
  let results := get_images_batch s iids
  (cleanItems env.bucket results, s, [.redisZRevRange uid, .redisBatchGet iids])

/-! ## Single-image download URL -/

/-- `ImageService.get_image_download_url` (src/services.py lines 194-207):
`None` when no record exists (`.ok none`); the `ValueError` raised on a
record without a truthy storage key becomes `.error`. -/
def get_image_download_url (env : S3Env) (iid : String) (s : AppState) :
    Except String (Option String) :=
  match lookupEntry s.images iid with
  | none => .ok none
  | some img =>
    match img.key with
    | none => .error "Image record missing S3 key"
    | some k =>
      if k = "" then .error "Image record missing S3 key"
      else .ok (some (env.presignDownload k))

/-! ## Access-Controlled Deletion -/

inductive DeleteResult where
  | not_found
  | forbidden
  | corrupt_record
  | storage_error
  | success
deriving DecidableEq, Repr

/-- `RedisClient.delete_image` (src/infrastructure/redis_client.py lines
110-118): one pipeline deleting the image hash and removing the id from the
owner's sorted set. -/
def redis_delete_image (s : AppState) (iid uid : String) : AppState :=
  { s with images := removeEntry s.images iid,
           user_images := zremId s.user_images uid iid }

/-- `ImageService.delete_image` (src/services.py lines 209-236).  The S3
delete is a network call that can raise; `s3ok` says whether it succeeds.
When it raises, the `except` branch returns `storage_error` and the Redis
delete never runs.  The error dictionaries are embedded as `DeleteResult`
(not_found=404, forbidden=403, corrupt_record=500, storage_error=500). -/
def delete_image (iid requester_uid : String) (s3ok : Bool) (s : AppState) :
    DeleteResult × AppState × List GatewayEvent :=
  match lookupEntry s.images iid with
  | none => (.not_found, s, [.redisGetImage iid])
  | some img =>
    if !(img.owner_uid = requester_uid) then (.forbidden, s, [.redisGetImage iid])
    else
      match img.key with
      | none => (.corrupt_record, s, [.redisGetImage iid])
      | some k =>
        if k = "" then (.corrupt_record, s, [.redisGetImage iid])
        else if s3ok then
          let s1 := { s with s3objects := s.s3objects.filter (fun j => !(j = k)) }
          (.success, redis_delete_image s1 iid requester_uid,
           [.redisGetImage iid, .s3Delete k, .redisDeleteImage iid requester_uid])
        else (.storage_error, s, [.redisGetImage iid, .s3Delete k])

inductive AppDeleteResult where
  | auth_error
  | not_found
  | forbidden
  | invalid_record
  | s3_error
  | deleted (iid : String)
deriving DecidableEq, Repr

/-- The `delete_image` route (src/app.py lines 202-239), the duplicated app
variant of the service delete: same check order, inlined Redis pipeline;
errors are `err(code, message, status)` responses (auth 401, not_found 404,
forbidden 403, invalid_record 500, s3_error 500). -/
def app_delete_image (auth : Option String) (iid : String) (s3ok : Bool)
    (s : AppState) : AppDeleteResult × AppState × List GatewayEvent :=
  match auth with
  | none => (.auth_error, s, [])
  | some uid =>
    match lookupEntry s.images iid with
    | none => (.not_found, s, [.redisGetImage iid])
    | some img =>
      if !(img.owner_uid = uid) then (.forbidden, s, [.redisGetImage iid])
      else
        match img.key with
        | none => (.invalid_record, s, [.redisGetImage iid])
        | some k =>
          if k = "" then (.invalid_record, s, [.redisGetImage iid])
          else if s3ok then
            let s1 := { s with s3objects := s.s3objects.filter (fun j => !(j = k)) }
            (.deleted iid, redis_delete_image s1 iid uid,
             [.redisGetImage iid, .s3Delete k, .redisDeleteImage iid uid])
          else (.s3_error, s, [.redisGetImage iid, .s3Delete k])

/-! ## The operations as one step relation -/

/-- One core operation, for stating state invariants uniformly. -/
inductive CoreOp where
  | initiate (uid filename mime_type hex : String)
  | finalize (uid iid key filename mime_type : String) (t : Nat)
  | complete (auth : Option String) (body : CompleteBody) (t : Nat)
  | gallery (uid : String)
  | download (iid : String)
  | delete (iid requester_uid : String) (s3ok : Bool)
  | appDelete (auth : Option String) (iid : String) (s3ok : Bool)

/-- The state transition of each core operation
(`get_image_download_url` performs no writes, so `download` is the
identity on the state). -/
def runOp (env : S3Env) : CoreOp → AppState → AppState
  | .initiate uid f m hex, s => (initiate_upload env uid f m hex s).2.1
  | .finalize uid iid key f m t, s => (finalize_upload env uid iid key f m t s).2.1
  | .complete auth body t, s => (complete_upload env auth body t s).2.1
  | .gallery uid, s => (get_user_gallery env uid s).2.1
  | .download _, s => s
  | .delete iid req s3ok, s => (delete_image iid req s3ok s).2.1
  | .appDelete auth iid s3ok, s => (app_delete_image auth iid s3ok s).2.1

/-! ## Concrete fixtures used by witnesses -/

def envW : S3Env :=
  { bucket := "bkt",
    presignUpload := fun key mime => "put:" ++ key ++ ":" ++ mime,
    presignDownload := fun key => "get:" ++ key }

def emptyState : AppState := { images := [], user_images := [], s3objects := [] }

/-! ## Association-list and store lemmas -/

theorem lookupEntry_setEntry_self {α : Type} (l : List (String × α)) (k : String)
    (v : α) : lookupEntry (setEntry l k v) k = some v := by
  simp [setEntry, lookupEntry]

theorem mem_setEntry {α : Type} {l : List (String × α)} {k : String} {v : α}
    {p : String × α} (h : p ∈ setEntry l k v) : p = (k, v) ∨ p ∈ l := by
  simp only [setEntry] at h
  rcases List.mem_cons.mp h with h | h
  · exact Or.inl h
  · exact Or.inr (List.mem_of_mem_filter h)

theorem mem_removeEntry {α : Type} {l : List (String × α)} {k : String}
    {p : String × α} (h : p ∈ removeEntry l k) : p ∈ l :=
  List.mem_of_mem_filter h

theorem lookupEntry_removeEntry_self {α : Type} (l : List (String × α))
    (k : String) : lookupEntry (removeEntry l k) k = none := by
  induction l with
  | nil => rfl
  | cons p rest ih =>
    by_cases h : p.1 = k
    · simpa [removeEntry, h] using ih
    · simpa [removeEntry, lookupEntry, h] using ih

theorem zremId_not_mem (m : List (String × List String)) (uid iid : String) :
    iid ∉ (lookupEntry (zremId m uid iid) uid).getD [] := by
  unfold zremId
  cases h : lookupEntry m uid with
  | none => simp [h]
  | some l =>
    rw [lookupEntry_setEntry_self]
    simp

/-- The gallery loop is exactly: drop the absent entries, repair the rest,
keeping the order. -/
theorem cleanItems_eq (bucket : String) (l : List (Option ImageRecord)) :
    cleanItems bucket l = l.reduceOption.map (repairItem bucket) := by
  induction l with
  | nil => rfl
  | cons o rest ih => cases o <;> simp [cleanItems, List.reduceOption_cons_of_none,
      List.reduceOption_cons_of_some, ih]

theorem get_public_url_ne_empty (bucket key : String) :
    get_public_url bucket key ≠ "" := by
  unfold get_public_url
  intro h
  have hd := congrArg String.data h
  simp [String.data_append] at hd

/-! ## Claim theorems -/

/-- C1: when a record exists but its `owner_uid` differs from the
requester's uid, both delete implementations return Forbidden with the
state of both stores unchanged, and the only gateway call made is the
initial record read — the ownership check happens strictly before any
storage mutation. -/
theorem delete_forbidden_no_mutation
    (s : AppState) (iid requester_uid : String) (img : ImageRecord) (s3ok : Bool)
    (hrec : lookupEntry s.images iid = some img)
    (hown : img.owner_uid ≠ requester_uid) :
    delete_image iid requester_uid s3ok s
      = (.forbidden, s, [.redisGetImage iid]) ∧
    app_delete_image (some requester_uid) iid s3ok s
      = (.forbidden, s, [.redisGetImage iid]) ∧
    ∀ e ∈ (delete_image iid requester_uid s3ok s).2.2, e.mutatesStore = false := by
  have h1 : delete_image iid requester_uid s3ok s
      = (.forbidden, s, [.redisGetImage iid]) := by
    simp [delete_image, hrec, hown]
  have h2 : app_delete_image (some requester_uid) iid s3ok s
      = (.forbidden, s, [.redisGetImage iid]) := by
    simp [app_delete_image, hrec, hown]
  refine ⟨h1, h2, ?_⟩
  rw [h1]
  intro e he
  simp at he
  subst he
  rfl

/-- C1 witness at a concrete state: a record owned by `"owner"`, deletion
requested by `"other"`. -/
theorem delete_forbidden_no_mutation_witness :
    delete_image "i1" "other" true
        (store_image emptyState "i1" "owner" "k1" "u" "f" "m" 5)
      = (.forbidden, store_image emptyState "i1" "owner" "k1" "u" "f" "m" 5,
         [.redisGetImage "i1"]) :=
  (delete_forbidden_no_mutation
    (store_image emptyState "i1" "owner" "k1" "u" "f" "m" 5) "i1" "other"
    (storedImageRecord "i1" "owner" "k1" "u" "f" "m" 5) true rfl (by decide)).1

/-- C2: delete is storage-first, index-second.  With an owned record whose
storage key is present: when the S3 delete fails the operation returns
`storage_error`, the whole state (so in particular the record and its
owner-listing entry) is untouched, and no index delete was issued; when the
S3 delete succeeds, the record and its listing entry are both gone, and the
trace shows the store delete strictly before the index delete. -/
theorem delete_order_storage_first
    (s : AppState) (iid requester_uid k : String) (img : ImageRecord)
    (hrec : lookupEntry s.images iid = some img)
    (hown : img.owner_uid = requester_uid)
    (hkey : img.key = some k) (hk : k ≠ "") :
    delete_image iid requester_uid false s
      = (.storage_error, s, [.redisGetImage iid, .s3Delete k]) ∧
    lookupEntry ((delete_image iid requester_uid false s).2.1).images iid
      = some img ∧
    (delete_image iid requester_uid true s).1 = .success ∧
    (delete_image iid requester_uid true s).2.2
      = [.redisGetImage iid, .s3Delete k, .redisDeleteImage iid requester_uid] ∧
    lookupEntry ((delete_image iid requester_uid true s).2.1).images iid = none ∧
    iid ∉ (lookupEntry ((delete_image iid requester_uid true s).2.1).user_images
            requester_uid).getD [] := by
  have hfail : delete_image iid requester_uid false s
      = (.storage_error, s, [.redisGetImage iid, .s3Delete k]) := by
    simp [delete_image, hrec, hkey, hown, hk]
  have hsucc : delete_image iid requester_uid true s
      = (.success,
         redis_delete_image
           { s with s3objects := s.s3objects.filter (fun j => !(j = k)) }
           iid requester_uid,
         [.redisGetImage iid, .s3Delete k, .redisDeleteImage iid requester_uid]) := by
    simp [delete_image, hrec, hkey, hown, hk]
  refine ⟨hfail, ?_, ?_, ?_, ?_, ?_⟩
  · rw [hfail]; exact hrec
  · rw [hsucc]
  · rw [hsucc]
  · rw [hsucc]; exact lookupEntry_removeEntry_self _ _
  · rw [hsucc]; exact zremId_not_mem _ _ _

/-- C2 witness at a concrete state, failing branch: the record is still
present after a failed store delete. -/
theorem delete_order_storage_first_witness :
    lookupEntry ((delete_image "i1" "owner" false
        (store_image emptyState "i1" "owner" "k1" "u" "f" "m" 5)).2.1).images "i1"
      = some (storedImageRecord "i1" "owner" "k1" "u" "f" "m" 5) :=
  (delete_order_storage_first
    (store_image emptyState "i1" "owner" "k1" "u" "f" "m" 5) "i1" "owner" "k1"
    (storedImageRecord "i1" "owner" "k1" "u" "f" "m" 5) rfl rfl rfl
    (by decide)).2.1

/-- C3: the `upload/complete` handler never reads an owner from the request
body — two bodies that agree on the four fields the handler reads (and may
differ in a body-supplied `owner`) produce identical responses, states and
traces.  On the success path exactly one record is written: the post-state
index is a single upsert of the record, whose `owner_uid` is the
authenticated caller's uid. -/
theorem complete_upload_owner_from_auth
    (env : S3Env) (auth : Option String) (b1 b2 : CompleteBody) (t : Nat)
    (s : AppState)
    (h1 : b1.iid = b2.iid) (h2 : b1.key = b2.key)
    (h3 : b1.filename = b2.filename) (h4 : b1.mime_type = b2.mime_type) :
    complete_upload env auth b1 t s = complete_upload env auth b2 t s ∧
    ∀ uid iid key filename mime_type ow,
      iid ≠ "" → key ≠ "" → filename ≠ "" → mime_type ≠ "" →
      complete_upload env (some uid)
          { iid := some iid, key := some key, filename := some filename,
            mime_type := some mime_type, owner := ow } t s
        = (.created iid ("/api/v1/image/" ++ iid),
           store_image s iid uid key (get_s3_url env.bucket key)
             filename mime_type t,
           [.redisStoreImage iid uid]) ∧
      (storedImageRecord iid uid key (get_s3_url env.bucket key)
          filename mime_type t).owner_uid = uid ∧
      (store_image s iid uid key (get_s3_url env.bucket key)
          filename mime_type t).images
        = setEntry s.images iid
            (storedImageRecord iid uid key (get_s3_url env.bucket key)
              filename mime_type t) := by
  constructor
  · cases b1
    cases b2
    simp only at h1 h2 h3 h4
    subst h1 h2 h3 h4
    rfl
  · intro uid iid key filename mime_type ow hi hkey hf hm
    refine ⟨?_, rfl, rfl⟩
    unfold complete_upload
    simp [hi, hkey, hf, hm]

/-- C3 witness: two concrete bodies differing only in the body-supplied
owner give the same result, and the stored owner is the caller. -/
theorem complete_upload_owner_from_auth_witness :
    complete_upload envW (some "caller")
        { iid := some "i", key := some "k", filename := some "f",
          mime_type := some "m", owner := some "evil" } 3 emptyState
      = complete_upload envW (some "caller")
        { iid := some "i", key := some "k", filename := some "f",
          mime_type := some "m", owner := none } 3 emptyState ∧
    (storedImageRecord "i" "caller" "k" (get_s3_url "bkt" "k") "f" "m" 3).owner_uid
      = "caller" := by
  constructor
  · exact (complete_upload_owner_from_auth envW (some "caller")
      { iid := some "i", key := some "k", filename := some "f",
        mime_type := some "m", owner := some "evil" }
      { iid := some "i", key := some "k", filename := some "f",
        mime_type := some "m", owner := none } 3 emptyState rfl rfl rfl rfl).1
  · exact ((complete_upload_owner_from_auth envW (some "caller")
      { iid := some "i", key := some "k", filename := some "f",
        mime_type := some "m", owner := some "evil" }
      { iid := some "i", key := some "k", filename := some "f",
        mime_type := some "m", owner := none } 3 emptyState rfl rfl rfl rfl).2
      "caller" "i" "k" "f" "m" (some "evil") (by decide) (by decide) (by decide)
      (by decide)).2.1

/-- C4 as stated fails on the code: the storage key is
`uploads/{uid}/{iid}/{safe_filename}` (src/services.py line 133), so at the
claim's own concrete input the key neither equals
`owner_id / id / display_name` nor starts with `"u1/"`. -/
theorem initiate_key_counterexample :
    (initiate_upload envW "u1" "My Photo.JPG" "image/jpeg" "abc" emptyState).1.key
      = "uploads/u1/img_abc/my-photo.jpg" ∧
    pyStartsWith (initiate_upload envW "u1" "My Photo.JPG" "image/jpeg" "abc"
        emptyState).1.key "u1/" = false ∧
    (initiate_upload envW "u1" "My Photo.JPG" "image/jpeg" "abc" emptyState).1.key
      ≠ "u1" ++ "/" ++ "img_abc" ++ "/" ++ "my-photo.jpg" := by
  refine ⟨by decide, by decide, by decide⟩

/-- C4 amended: the returned storage key equals
`"uploads/" ++ owner_id ++ "/" ++ id ++ "/" ++ display_name` with
`display_name` the normalized filename; concretely,
`initiate("u1", "My Photo.JPG", "image/jpeg")` returns a key starting with
`"uploads/u1/"` and display name `"my-photo.jpg"`. -/
theorem initiate_storage_key_structure
    (env : S3Env) (uid filename mime_type hex : String) (s : AppState) :
    (initiate_upload env uid filename mime_type hex s).1.key
      = "uploads/" ++ uid ++ "/"
        ++ (initiate_upload env uid filename mime_type hex s).1.iid
        ++ "/" ++ (initiate_upload env uid filename mime_type hex s).1.filename ∧
    (initiate_upload env uid filename mime_type hex s).1.iid = "img_" ++ hex ∧
    (initiate_upload env uid filename mime_type hex s).1.filename
      = sanitize_filename filename 120 ∧
    (initiate_upload envW "u1" "My Photo.JPG" "image/jpeg" "x"
        emptyState).1.filename = "my-photo.jpg" ∧
    pyStartsWith (initiate_upload envW "u1" "My Photo.JPG" "image/jpeg" "x"
        emptyState).1.key "uploads/u1/" = true := by
  refine ⟨?_, rfl, rfl, by decide, by decide⟩
  simp [initiate_upload, String.append_assoc]

/-- C5: `initiate_upload` neither reads nor writes the Metadata Index: the
state (of both stores) after the call is exactly the state before, and the
trace contains no Redis call at all — its only gateway call is the S3
presign. -/
theorem initiate_upload_index_frame
    (env : S3Env) (uid filename mime_type hex : String) (s : AppState) :
    (initiate_upload env uid filename mime_type hex s).2.1 = s ∧
    ((initiate_upload env uid filename mime_type hex s).2.2.all
      (fun e => !e.touchesIndex)) = true :=
  ⟨rfl, rfl⟩

/-- C6: the gallery returns the present records in index order (the loop is
exactly `reduceOption` — which silently skips absent entries and never
reorders — followed by a per-record repair); a present record with a truthy
storage key and an unusable reference gets `get_public_url` of that key; in
particular a record with reference `"s3://bucket/key"` and key `"k1"`
resolves to `get_public_url bucket "k1"`. -/
theorem gallery_repairs_unusable
    (env : S3Env) (uid : String) (s : AppState) :
    (get_user_gallery env uid s).1
      = ((get_images_batch s (get_user_images s uid 50)).reduceOption).map
          (repairItem env.bucket) ∧
    (∀ (data : ImageRecord) (k : String),
      data.key = some k → k ≠ "" → unusableUrl data.url = true →
      (repairItem env.bucket data).url = some (get_public_url env.bucket k)) ∧
    (∀ data : ImageRecord,
      data.url = some "s3://bucket/key" → data.key = some "k1" →
      (repairItem env.bucket data).url = some (get_public_url env.bucket "k1")) := by
  have hrep : ∀ (data : ImageRecord) (k : String),
      data.key = some k → k ≠ "" → unusableUrl data.url = true →
      (repairItem env.bucket data).url = some (get_public_url env.bucket k) := by
    intro data k hkey hk hun
    unfold repairItem
    rw [hkey]
    simp only [hk, hun, truthyOpt]
    simp [get_public_url_ne_empty env.bucket k]
  refine ⟨cleanItems_eq _ _, hrep, ?_⟩
  intro data hurl hkey
  exact hrep data "k1" hkey (by decide) (by rw [hurl]; decide)

/-- C6 witness at a concrete state: one record with the stale `s3://`
reference and key `"k1"`, listed for `"owner"`. -/
theorem gallery_repairs_unusable_witness :
    (get_user_gallery envW "owner"
        (store_image emptyState "i1" "owner" "k1" "s3bad" "f" "m" 5)).1
      = ((get_images_batch
            (store_image emptyState "i1" "owner" "k1" "s3bad" "f" "m" 5)
            (get_user_images
              (store_image emptyState "i1" "owner" "k1" "s3bad" "f" "m" 5)
              "owner" 50)).reduceOption).map (repairItem "bkt") ∧
    (repairItem "bkt"
        (storedImageRecord "i1" "owner" "k1" "s3://bucket/key" "f" "m" 5)).url
      = some (get_public_url "bkt" "k1") := by
  constructor
  · exact (gallery_repairs_unusable envW "owner" _).1
  · exact (gallery_repairs_unusable envW "owner" emptyState).2.2
      (storedImageRecord "i1" "owner" "k1" "s3://bucket/key" "f" "m" 5) rfl rfl

/-- Every record still indexed after a delete was indexed before it. -/
theorem delete_image_images_subset (iid req : String) (ok : Bool) (s : AppState)
    {p : String × ImageRecord}
    (hp : p ∈ ((delete_image iid req ok s).2.1).images) : p ∈ s.images := by
  unfold delete_image at hp
  split at hp
  · exact hp
  · split at hp
    · exact hp
    · split at hp
      · exact hp
      · split at hp
        · exact hp
        · split at hp
          · simp only [redis_delete_image] at hp
            exact mem_removeEntry hp
          · exact hp

/-- Every record still indexed after the app-variant delete was indexed
before it. -/
theorem app_delete_image_images_subset (auth : Option String) (iid : String)
    (ok : Bool) (s : AppState) {p : String × ImageRecord}
    (hp : p ∈ ((app_delete_image auth iid ok s).2.1).images) : p ∈ s.images := by
  unfold app_delete_image at hp
  split at hp
  · exact hp
  · split at hp
    · exact hp
    · split at hp
      · exact hp
      · split at hp
        · exact hp
        · split at hp
          · exact hp
          · split at hp
            · simp only [redis_delete_image] at hp
              exact mem_removeEntry hp
            · exact hp

/-- C9: every Object Record written by finalize (both the service-layer
`finalize_upload` via `store_image` and the app-route `complete_upload`)
has `private = 1` and `views = 0` regardless of caller input; no core
operation ever creates or changes a record to a non-private visibility
(every operation preserves the all-records-private invariant); and the
reference stored by the service-layer finalize is the public URL. -/
theorem records_always_private
    (env : S3Env) (op : CoreOp) (s : AppState)
    (hinv : ∀ p ∈ s.images, p.2.private_flag = 1) :
    (∀ p ∈ (runOp env op s).images, p.2.private_flag = 1) ∧
    (∀ iid uid key url filename mime_type t,
      (storedImageRecord iid uid key url filename mime_type t).private_flag = 1 ∧
      (storedImageRecord iid uid key url filename mime_type t).views = 0) ∧
    (∀ uid iid key filename mime_type t,
      lookupEntry
          ((finalize_upload env uid iid key filename mime_type t s).2.1).images
          iid
        = some (storedImageRecord iid uid key (get_public_url env.bucket key)
            filename mime_type t)) := by
  refine ⟨?_, fun _ _ _ _ _ _ _ => ⟨rfl, rfl⟩, ?_⟩
  · intro p hp
    cases op with
    | initiate uid f m hex => exact hinv p hp
    | finalize uid iid key f m t =>
      simp only [runOp, finalize_upload, store_image] at hp
      rcases mem_setEntry hp with h | h
      · rw [h]; rfl
      · exact hinv p h
    | complete auth body t =>
      simp only [runOp, complete_upload] at hp
      split at hp
      · exact hinv p hp
      · split at hp
        · split at hp
          · exact hinv p hp
          · simp only [store_image] at hp
            rcases mem_setEntry hp with h | h
            · rw [h]; rfl
            · exact hinv p h
        · exact hinv p hp
    | gallery uid => exact hinv p hp
    | download iid => exact hinv p hp
    | delete iid req ok => exact hinv p (delete_image_images_subset iid req ok s hp)
    | appDelete auth iid ok =>
      exact hinv p (app_delete_image_images_subset auth iid ok s hp)
  · intro uid iid key f m t
    exact lookupEntry_setEntry_self _ _ _

/-- C9 witness: finalize on the empty state; the stored record is private
with zero views and carries the public URL. -/
theorem records_always_private_witness :
    (storedImageRecord "i" "u" "k" "url" "f" "m" 0).private_flag = 1 ∧
    (storedImageRecord "i" "u" "k" "url" "f" "m" 0).views = 0 ∧
    lookupEntry
        ((finalize_upload envW "u" "i" "k" "f" "m" 0 emptyState).2.1).images "i"
      = some (storedImageRecord "i" "u" "k" (get_public_url "bkt" "k") "f" "m" 0)
    := by
  have h := records_always_private envW (CoreOp.finalize "u" "i" "k" "f" "m" 0)
    emptyState (by intro p hp; simp [emptyState] at hp)
  exact ⟨(h.2.1 "i" "u" "k" "url" "f" "m" 0).1,
         (h.2.1 "i" "u" "k" "url" "f" "m" 0).2,
         h.2.2 "u" "i" "k" "f" "m" 0⟩

/-- C10: the single-image download-URL operation distinguishes its failure
shapes asymmetrically: an id with no record yields `.ok none` (an absent
result, not an error), while an existing record without a truthy storage
key raises the corrupt-record `ValueError` (`.error`). -/
theorem download_url_failure_shapes
    (env : S3Env) (iid : String) (s : AppState) :
    (lookupEntry s.images iid = none →
      get_image_download_url env iid s = .ok none) ∧
    (∀ img, lookupEntry s.images iid = some img → truthyOpt img.key = false →
      get_image_download_url env iid s
        = .error "Image record missing S3 key") := by
  constructor
  · intro h
    unfold get_image_download_url
    rw [h]
  · intro img h hkey
    cases hk : img.key with
    | none => simp [get_image_download_url, h, hk]
    | some k =>
      rw [hk] at hkey
      have hke : k = "" := by simpa [truthyOpt] using hkey
      simp [get_image_download_url, h, hk, hke]

/-- C10 witness: absent id on the empty state, and a corrupt record without
a key. -/
theorem download_url_failure_shapes_witness :
    get_image_download_url envW "nope" emptyState = .ok none ∧
    get_image_download_url envW "i1"
        { emptyState with
          images := [("i1",
            { id := "i1", owner_uid := "o", key := none, url := none,
              filename := "f", mime := "m", private_flag := 1,
              created_at := 0, views := 0 })] }
      = .error "Image record missing S3 key" := by
  constructor
  · exact (download_url_failure_shapes envW "nope" emptyState).1 rfl
  · exact (download_url_failure_shapes envW "i1" _).2 _ rfl rfl

/-! ## Character-level lemmas for the normalizer -/

theorem toNat_ofNat_valid (n : Nat) (h : n < 55296) : (Char.ofNat n).toNat = n := by
  rw [Char.ofNat, dif_pos (Or.inl h)]
  rfl

theorem eq_char_iff_toNat {c d : Char} : c = d ↔ c.toNat = d.toNat := by
  constructor
  · intro h; rw [h]
  · intro h
    have h1 := Char.ofNat_toNat c
    rw [h, Char.ofNat_toNat] at h1
    exact h1.symm

theorem isUpperAZ_iff {c : Char} :
    isUpperAZ c = true ↔ 65 ≤ c.toNat ∧ c.toNat ≤ 90 := by
  simp [isUpperAZ]

theorem isLowerAZ_iff {c : Char} :
    isLowerAZ c = true ↔ 97 ≤ c.toNat ∧ c.toNat ≤ 122 := by
  simp [isLowerAZ]

theorem isDigit09_iff {c : Char} :
    isDigit09 c = true ↔ 48 ≤ c.toNat ∧ c.toNat ≤ 57 := by
  simp [isDigit09]

theorem allowedChar_iff {c : Char} :
    allowedChar c = true ↔
      (97 ≤ c.toNat ∧ c.toNat ≤ 122) ∨ (48 ≤ c.toNat ∧ c.toNat ≤ 57) ∨
      c.toNat = 46 ∨ c.toNat = 95 ∨ c.toNat = 45 := by
  have hd : (c = '.') ↔ c.toNat = 46 := eq_char_iff_toNat
  have hu : (c = '_') ↔ c.toNat = 95 := eq_char_iff_toNat
  have hh : (c = '-') ↔ c.toNat = 45 := eq_char_iff_toNat
  simp only [allowedChar, isLowerAZ, isDigit09, hd, hu, hh, Bool.or_eq_true,
    Bool.and_eq_true, decide_eq_true_eq]
  omega

theorem keepChar_iff {c : Char} :
    keepChar c = true ↔
      (65 ≤ c.toNat ∧ c.toNat ≤ 90) ∨ (97 ≤ c.toNat ∧ c.toNat ≤ 122) ∨
      (48 ≤ c.toNat ∧ c.toNat ≤ 57) ∨ c.toNat = 46 ∨ c.toNat = 95 ∨
      c.toNat = 45 := by
  have hd : (c = '.') ↔ c.toNat = 46 := eq_char_iff_toNat
  have hu : (c = '_') ↔ c.toNat = 95 := eq_char_iff_toNat
  have hh : (c = '-') ↔ c.toNat = 45 := eq_char_iff_toNat
  simp only [keepChar, isUpperAZ, isLowerAZ, isDigit09, hd, hu, hh,
    Bool.or_eq_true, Bool.and_eq_true, decide_eq_true_eq]
  omega

theorem isStripChar_iff {c : Char} :
    isStripChar c = true ↔ c.toNat = 45 ∨ c.toNat = 46 ∨ c.toNat = 95 := by
  have hd : (c = '.') ↔ c.toNat = 46 := eq_char_iff_toNat
  have hu : (c = '_') ↔ c.toNat = 95 := eq_char_iff_toNat
  have hh : (c = '-') ↔ c.toNat = 45 := eq_char_iff_toNat
  simp only [isStripChar, hd, hu, hh, Bool.or_eq_true, decide_eq_true_eq]
  omega

theorem notDotSlash_iff {c : Char} :
    notDotSlash c = true ↔ ¬c.toNat = 46 ∧ ¬c.toNat = 47 := by
  have hd : (c = '.') ↔ c.toNat = 46 := eq_char_iff_toNat
  have hs : (c = '/') ↔ c.toNat = 47 := eq_char_iff_toNat
  simp [notDotSlash, hd, hs]

theorem isLowerAlnum_iff {c : Char} :
    isLowerAlnum c = true ↔
      (97 ≤ c.toNat ∧ c.toNat ≤ 122) ∨ (48 ≤ c.toNat ∧ c.toNat ≤ 57) := by
  simp [isLowerAlnum, isLowerAZ, isDigit09]

theorem pyLowerAscii_toNat_of_upper {c : Char} (h : isUpperAZ c = true) :
    (pyLowerAscii c).toNat = c.toNat + 32 := by
  have h1 : 65 ≤ c.toNat ∧ c.toNat ≤ 90 := isUpperAZ_iff.mp h
  rw [pyLowerAscii, if_pos h]
  exact toNat_ofNat_valid _ (by omega)

theorem pyLowerAscii_fix {c : Char} (h : isUpperAZ c = false) :
    pyLowerAscii c = c := by
  rw [pyLowerAscii, if_neg (by simp [h])]

theorem allowedChar_keep {c : Char} (h : allowedChar c = true) :
    keepChar c = true := by
  rw [keepChar_iff]
  rcases allowedChar_iff.mp h with h | h | h | h | h <;> omega

theorem allowedChar_ascii {c : Char} (h : allowedChar c = true) :
    c.toNat < 128 := by
  rcases allowedChar_iff.mp h with h | h | h | h | h <;> omega

theorem allowedChar_not_upper {c : Char} (h : allowedChar c = true) :
    isUpperAZ c = false := by
  rw [Bool.eq_false_iff]
  intro hu
  rcases isUpperAZ_iff.mp hu with ⟨h1, h2⟩
  rcases allowedChar_iff.mp h with h | h | h | h | h <;> omega

theorem allowedChar_not_strip_pyLower {c : Char} (h : isStripChar c = false) :
    isStripChar (pyLowerAscii c) = false := by
  by_cases hu : isUpperAZ c = true
  · rw [Bool.eq_false_iff]
    intro hs
    have ht := pyLowerAscii_toNat_of_upper hu
    rcases isUpperAZ_iff.mp hu with ⟨h1, h2⟩
    rcases isStripChar_iff.mp hs with hs | hs | hs <;> omega
  · rw [pyLowerAscii_fix (Bool.eq_false_iff.mpr hu)]
    exact h

theorem allowedChar_of_keep_lower {c : Char} (h : keepChar c = true) :
    allowedChar (pyLowerAscii c) = true := by
  by_cases hu : isUpperAZ c = true
  · have ht := pyLowerAscii_toNat_of_upper hu
    rcases isUpperAZ_iff.mp hu with ⟨h1, h2⟩
    rw [allowedChar_iff]
    omega
  · rw [pyLowerAscii_fix (Bool.eq_false_iff.mpr hu)]
    rw [allowedChar_iff]
    have hun : isUpperAZ c = false := Bool.eq_false_iff.mpr hu
    rw [isUpperAZ, Bool.and_eq_false_iff] at hun
    rcases keepChar_iff.mp h with h | h | h | h | h | h
    · exfalso
      simp only [decide_eq_false_iff_not, Nat.not_le] at hun
      omega
    all_goals omega

/-! ## Stage lemmas for the normalizer pipeline -/

/-- NFKD-then-ASCII-strip is the identity on ASCII strings. -/
theorem pyAsciiFold_id {l : List Char} (h : ∀ c ∈ l, c.toNat < 128) :
    pyAsciiFold l = l := by
  induction l with
  | nil => rfl
  | cons c rest ih =>
    have hc : asciiFoldChar c = [c] := by
      rw [asciiFoldChar, if_pos (h c (by simp))]
    simp only [pyAsciiFold, List.map_cons, List.flatten_cons] at ih ⊢
    rw [hc, ih (fun d hd => h d (by simp [hd]))]
    rfl

/-- Every character the run-collapsing substitution emits is in the kept
class (the replacement `'-'` itself is in the class). -/
theorem keep_of_mem_subDashGo {l : List Char} {b : Bool} {c : Char}
    (h : c ∈ subDashGo b l) : keepChar c = true := by
  induction l generalizing b with
  | nil => simp [subDashGo] at h
  | cons d rest ih =>
    rw [subDashGo] at h
    by_cases hd : keepChar d
    · rw [if_pos hd] at h
      rcases List.mem_cons.mp h with h | h
      · rw [h]; exact hd
      · exact ih h
    · rw [if_neg hd] at h
      cases b with
      | true => exact ih (by simpa using h)
      | false =>
        simp only [Bool.false_eq_true, if_false] at h
        rcases List.mem_cons.mp h with h | h
        · rw [h]; decide
        · exact ih h

/-- The substitution leaves a string of kept characters unchanged. -/
theorem subDashGo_of_all_keep {l : List Char} (h : ∀ c ∈ l, keepChar c = true) :
    ∀ b, subDashGo b l = l := by
  induction l with
  | nil => intro b; rfl
  | cons c rest ih =>
    intro b
    rw [subDashGo, if_pos (h c (by simp))]
    rw [ih (fun d hd => h d (by simp [hd])) false]

theorem head_dropWhile_not {α : Type} {p : α → Bool} :
    ∀ {l : List α} {c : α}, (l.dropWhile p).head? = some c → p c = false := by
  intro l
  induction l with
  | nil => intro c h; simp [List.dropWhile] at h
  | cons d rest ih =>
    intro c h
    rw [List.dropWhile_cons] at h
    by_cases hd : p d
    · rw [if_pos hd] at h
      exact ih h
    · rw [if_neg hd] at h
      simp only [List.head?_cons, Option.some.injEq] at h
      rw [← h]
      exact Bool.eq_false_iff.mpr hd

theorem dropWhile_eq_self_of_head {α : Type} {p : α → Bool} {l : List α}
    (h : ∀ c, l.head? = some c → p c = false) : l.dropWhile p = l := by
  cases l with
  | nil => rfl
  | cons d rest =>
    rw [List.dropWhile_cons, if_neg]
    simp [h d rfl]

theorem getLast_dropWhile {α : Type} {p : α → Bool} :
    ∀ {l : List α}, l.dropWhile p ≠ [] →
      (l.dropWhile p).getLast? = l.getLast? := by
  intro l
  induction l with
  | nil => intro h; simp [List.dropWhile] at h
  | cons d rest ih =>
    intro h
    rw [List.dropWhile_cons]
    by_cases hd : p d
    · rw [List.dropWhile_cons, if_pos hd] at h
      rw [if_pos hd, ih h]
      cases hr : rest with
      | nil =>
        rw [hr] at h
        simp [List.dropWhile] at h
      | cons e tail => simp [List.getLast?_cons_cons]
    · rw [if_neg hd]

/-- The strip of both ends only removes characters. -/
theorem mem_stripChars {l : List Char} {c : Char} (h : c ∈ stripChars l) :
    c ∈ l := by
  unfold stripChars at h
  rw [List.mem_reverse] at h
  have h1 := (List.dropWhile_sublist isStripChar).mem h
  rw [List.mem_reverse] at h1
  exact (List.dropWhile_sublist isStripChar).mem h1

/-- A nonempty strip result starts with a non-strip character. -/
theorem stripChars_head {l : List Char} {c : Char}
    (h : (stripChars l).head? = some c) : isStripChar c = false := by
  unfold stripChars at h
  rw [List.head?_reverse] at h
  have hne : (l.dropWhile isStripChar).reverse.dropWhile isStripChar ≠ [] := by
    intro he
    rw [he] at h
    simp at h
  rw [getLast_dropWhile hne, List.getLast?_reverse] at h
  exact head_dropWhile_not h

/-- A nonempty strip result ends with a non-strip character. -/
theorem stripChars_getLast {l : List Char} {c : Char}
    (h : (stripChars l).getLast? = some c) : isStripChar c = false := by
  unfold stripChars at h
  rw [List.getLast?_reverse] at h
  exact head_dropWhile_not h

/-- Stripping a list whose ends are already non-strip characters is the
identity. -/
theorem stripChars_eq_self {l : List Char}
    (h1 : ∀ c, l.head? = some c → isStripChar c = false)
    (h2 : ∀ c, l.getLast? = some c → isStripChar c = false) :
    stripChars l = l := by
  unfold stripChars
  rw [dropWhile_eq_self_of_head h1]
  rw [dropWhile_eq_self_of_head (fun c hc => h2 c (by rwa [List.head?_reverse] at hc))]
  exact List.reverse_reverse l

theorem map_pyLowerAscii_id {l : List Char}
    (h : ∀ c ∈ l, isUpperAZ c = false) : l.map pyLowerAscii = l := by
  induction l with
  | nil => rfl
  | cons c rest ih =>
    rw [List.map_cons, pyLowerAscii_fix (h c (by simp)),
      ih (fun d hd => h d (by simp [hd]))]

theorem dropWhile_append_all {α : Type} {p : α → Bool} {a d : List α}
    (h : ∀ c ∈ a, p c = true) : (a ++ d).dropWhile p = d.dropWhile p := by
  induction a with
  | nil => rfl
  | cons x xs ih =>
    rw [List.cons_append, List.dropWhile_cons, if_pos (h x (by simp))]
    exact ih (fun c hc => h c (by simp [hc]))

theorem takeWhile_append_all {α : Type} {p : α → Bool} {a d : List α}
    (h : ∀ c ∈ a, p c = true) : (a ++ d).takeWhile p = a ++ d.takeWhile p := by
  induction a with
  | nil => rfl
  | cons x xs ih =>
    rw [List.cons_append, List.takeWhile_cons, if_pos (h x (by simp)),
      ih (fun c hc => h c (by simp [hc])), List.cons_append]

/-! ## splitext lemmas -/

/-- `splitext` of a name with no dot and no slash returns no extension. -/
theorem splitextList_no_dot {l : List Char}
    (h : ∀ c ∈ l, notDotSlash c = true) : splitextList l = (l, []) := by
  unfold splitextList
  rw [List.dropWhile_eq_nil_iff.mpr (fun c hc => h c (List.mem_reverse.mp hc))]

/-- `splitext` of `base ++ "." ++ ext` splits at that dot when the base is
nonempty and neither part contains a dot or slash. -/
theorem splitextList_append_ext {b x : List Char} (hb : b ≠ [])
    (hbd : ∀ c ∈ b, notDotSlash c = true)
    (hx : ∀ c ∈ x, notDotSlash c = true) :
    splitextList (b ++ '.' :: x) = (b, '.' :: x) := by
  have hx' : ∀ c ∈ x.reverse, notDotSlash c = true :=
    fun c hc => hx c (List.mem_reverse.mp hc)
  have hrev : (b ++ '.' :: x).reverse = x.reverse ++ '.' :: b.reverse := by
    simp [List.reverse_append]
  have hdrop : (b ++ '.' :: x).reverse.dropWhile notDotSlash
      = '.' :: b.reverse := by
    rw [hrev, dropWhile_append_all hx', List.dropWhile_cons, if_neg (by decide)]
  have htake : (b ++ '.' :: x).reverse.takeWhile notDotSlash = x.reverse := by
    rw [hrev, takeWhile_append_all hx', List.takeWhile_cons, if_neg (by decide),
      List.append_nil]
  have htk : b.reverse.takeWhile (fun d => !(d = '/')) = b.reverse := by
    rw [List.takeWhile_eq_self_iff]
    intro c hc
    have h1 := (notDotSlash_iff.mp (hbd c (List.mem_reverse.mp hc))).2
    simp only [Bool.not_eq_true', decide_eq_false_iff_not]
    intro he
    exact h1 (by rw [he]; rfl)
  have hnall : b.reverse.all (fun d => d = '.') = false := by
    rw [Bool.eq_false_iff]
    intro hall
    cases b with
    | nil => exact hb rfl
    | cons c t =>
      have hm : c ∈ (c :: t).reverse := List.mem_reverse.mpr (by simp)
      have h1 := List.all_eq_true.mp hall c hm
      have h2 := (notDotSlash_iff.mp (hbd c (by simp))).1
      simp only [decide_eq_true_eq] at h1
      exact h2 (by rw [h1]; rfl)
  unfold splitextList
  rw [hdrop]
  simp only [if_pos rfl, htake, htk, hnall, Bool.false_eq_true, if_false,
    List.reverse_reverse, if_true]

/-! ## Specification bundles for base and extension -/

/-- The cleaned base is nonempty, made of allowed characters, and has
non-strip characters at both ends. -/
theorem sanitizedBaseFull_spec (f : String) :
    sanitizedBaseFull f ≠ [] ∧
    (∀ c ∈ sanitizedBaseFull f, allowedChar c = true) ∧
    (∀ c, (sanitizedBaseFull f).head? = some c → isStripChar c = false) ∧
    (∀ c, (sanitizedBaseFull f).getLast? = some c → isStripChar c = false) := by
  unfold sanitizedBaseFull
  by_cases hbe : preBase f = []
  · rw [if_pos hbe]
    refine ⟨by decide, by decide, ?_, ?_⟩
    · intro c h
      have hc : c = 'f' := by
        rw [show "file".data = ['f', 'i', 'l', 'e'] from rfl] at h
        simpa using h.symm
      rw [hc]
      decide
    · intro c h
      have hc : c = 'e' := by
        rw [show "file".data = ['f', 'i', 'l', 'e'] from rfl] at h
        simpa using h.symm
      rw [hc]
      decide
  · rw [if_neg hbe]
    have hmem : ∀ c ∈ preBase f, allowedChar c = true := by
      intro c hc
      rcases List.mem_map.mp hc with ⟨d, hd, hdc⟩
      have hk : keepChar d = true :=
        keep_of_mem_subDashGo (mem_stripChars hd)
      rw [← hdc]
      exact allowedChar_of_keep_lower hk
    refine ⟨hbe, hmem, ?_, ?_⟩
    · intro c hc
      unfold preBase at hc
      rw [List.head?_map] at hc
      cases hh : (stripChars (subDash (pyAsciiFold
          (splitextList (pyOrFile f).data).1))).head? with
      | none => rw [hh] at hc; simp at hc
      | some d =>
        rw [hh] at hc
        simp only [Option.map_some', Option.some.injEq] at hc
        rw [← hc]
        exact allowedChar_not_strip_pyLower (stripChars_head hh)
    · intro c hc
      unfold preBase at hc
      rw [List.getLast?_map] at hc
      cases hh : (stripChars (subDash (pyAsciiFold
          (splitextList (pyOrFile f).data).1))).getLast? with
      | none => rw [hh] at hc; simp at hc
      | some d =>
        rw [hh] at hc
        simp only [Option.map_some', Option.some.injEq] at hc
        rw [← hc]
        exact allowedChar_not_strip_pyLower (stripChars_getLast hh)

/-- The cleaned extension is empty, or a dot followed by a nonempty run of
lowercase alphanumerics. -/
theorem sanitizedExt_spec (f : String) :
    sanitizedExt f = [] ∨
    (sanitizedExt f = '.' :: preExt f ∧ preExt f ≠ [] ∧
     ∀ c ∈ preExt f, isLowerAlnum c = true) := by
  unfold sanitizedExt
  by_cases h : preExt f = []
  · left; rw [if_pos h]
  · right
    exact ⟨if_neg h, h, fun c hc => List.of_mem_filter hc⟩

/-- Every character of the normalizer's output lies in `[a-z0-9_.-]`. -/
theorem sanitize_filename_allowed (f : String) (m : Nat) :
    ∀ c ∈ (sanitize_filename f m).data, allowedChar c = true := by
  intro c hc
  have hc' : c ∈ sanitizedBase f m ++ sanitizedExt f := hc
  rcases List.mem_append.mp hc' with hc1 | hc1
  · have h1 : c ∈ sanitizedBaseFull f := by
      unfold sanitizedBase at hc1
      exact ((List.take_sublist m _).mem hc1)
    exact (sanitizedBaseFull_spec f).2.1 c h1
  · rcases sanitizedExt_spec f with he | ⟨he, hne, hall⟩
    · rw [he] at hc1; simp at hc1
    · rw [he] at hc1
      rcases List.mem_cons.mp hc1 with hc2 | hc2
      · rw [hc2]; decide
      · have h2 := hall c hc2
        rw [allowedChar_iff]
        rcases isLowerAlnum_iff.mp h2 with h | h <;> omega

/-! ## C7 and C8 -/

/-- C7 as stated fails at `max_length = 0`: truncation happens after the
empty-base substitution (src/services.py line 41 runs after lines 38-39),
so `sanitize_filename "a" 0` has an empty base portion, and the whole
output is the empty string. -/
theorem sanitize_filename_empty_base_counterexample :
    sanitize_filename "a" 0 = "" ∧ sanitizedBase "a" 0 = [] := by
  exact ⟨by decide, by decide⟩

/-- C7 amended: the normalizer is total and deterministic (it is a pure
function of its two arguments); for every input and `max_length`, every
character of the output lies in `[a-z0-9_.-]`, the output is the base
followed by the extension, and the base portion has length at most
`max_length`; the base is nonempty provided `max_length ≥ 1` (at
`max_length = 0` truncation empties it); concretely,
`"Špéciål Name!!.PNG"` normalizes to `"special-name.png"`. -/
theorem sanitize_filename_format (f : String) (m : Nat) (hm : 1 ≤ m) :
    (∀ c ∈ (sanitize_filename f m).data, allowedChar c = true) ∧
    sanitizedBase f m ≠ [] ∧
    (sanitizedBase f m).length ≤ m ∧
    (sanitize_filename f m).data = sanitizedBase f m ++ sanitizedExt f ∧
    sanitize_filename "Špéciål Name!!.PNG" 120 = "special-name.png" := by
  refine ⟨sanitize_filename_allowed f m, ?_, ?_, rfl, by decide⟩
  · have hne := (sanitizedBaseFull_spec f).1
    unfold sanitizedBase
    cases hb : sanitizedBaseFull f with
    | nil => exact absurd hb hne
    | cons c t =>
      cases m with
      | zero => omega
      | succ k => simp
  · unfold sanitizedBase
    simp [List.length_take_le]

/-- C7 witness at `max_length = 120`. -/
theorem sanitize_filename_format_witness :
    sanitizedBase "Name.PNG" 120 ≠ [] ∧
    sanitize_filename "Špéciål Name!!.PNG" 120 = "special-name.png" := by
  have h := sanitize_filename_format "Name.PNG" 120 (by decide)
  exact ⟨h.2.1, h.2.2.2.2⟩

/-- C8 as stated fails: truncation runs after the end-strip, so it can
expose a trailing `-`; `sanitize_filename "a-b" 2 = "a-"`, which
re-normalizes to `"a"`. -/
theorem sanitize_idempotent_counterexample :
    sanitize_filename (sanitize_filename "a-b" 2) 2
      ≠ sanitize_filename "a-b" 2 := by
  decide

/-- The base pipeline fixes a list that is already clean: allowed
characters, non-strip characters at both ends. -/
theorem preBase_pipeline_fix {l : List Char}
    (hall : ∀ c ∈ l, allowedChar c = true)
    (hhead : ∀ c, l.head? = some c → isStripChar c = false)
    (hlast : ∀ c, l.getLast? = some c → isStripChar c = false) :
    (stripChars (subDash (pyAsciiFold l))).map pyLowerAscii = l := by
  rw [pyAsciiFold_id (fun c hc => allowedChar_ascii (hall c hc))]
  rw [show subDash l = l from
    subDashGo_of_all_keep (fun c hc => allowedChar_keep (hall c hc)) false]
  rw [stripChars_eq_self hhead hlast]
  exact map_pyLowerAscii_id (fun c hc => allowedChar_not_upper (hall c hc))

/-- C8 amended: re-normalizing returns the output unchanged provided the
cleaned base fits within `max_length` (so truncation cannot expose a
trailing strip character) and contains no dot (so the output re-splits at
the same extension boundary).  Without these conditions idempotence fails,
see the counterexample. -/
theorem sanitize_filename_idempotent_amended (f : String) (m : Nat)
    (hlen : (sanitizedBaseFull f).length ≤ m)
    (hdot : ∀ c ∈ sanitizedBaseFull f, ¬c.toNat = 46) :
    sanitize_filename (sanitize_filename f m) m = sanitize_filename f m := by
  obtain ⟨hne, hall, hhead, hlast⟩ := sanitizedBaseFull_spec f
  have hbase : sanitizedBase f m = sanitizedBaseFull f := by
    unfold sanitizedBase
    exact List.take_of_length_le hlen
  have hnds : ∀ c ∈ sanitizedBaseFull f, notDotSlash c = true := by
    intro c hc
    rw [notDotSlash_iff]
    have ha := allowedChar_iff.mp (hall c hc)
    have hd := hdot c hc
    omega
  have hOdata : (sanitize_filename f m).data
      = sanitizedBaseFull f ++ sanitizedExt f := by
    show sanitizedBase f m ++ sanitizedExt f = _
    rw [hbase]
  have hOne : ¬ sanitize_filename f m = "" := by
    intro h
    have h1 := congrArg String.data h
    rw [hOdata] at h1
    simp only [show ("" : String).data = [] from rfl,
      List.append_eq_nil] at h1
    exact hne h1.1
  have hpyor : pyOrFile (sanitize_filename f m) = sanitize_filename f m := by
    rw [pyOrFile, if_neg hOne]
  have hsplit : splitextList (sanitize_filename f m).data
      = (sanitizedBaseFull f, sanitizedExt f) := by
    rcases sanitizedExt_spec f with he | ⟨he, hxne, hxall⟩
    · rw [hOdata, he, List.append_nil, splitextList_no_dot hnds]
    · rw [hOdata, he]
      refine splitextList_append_ext hne hnds ?_
      intro c hc
      have h2 := isLowerAlnum_iff.mp (hxall c hc)
      rw [notDotSlash_iff]
      omega
  have hpre : preBase (sanitize_filename f m) = sanitizedBaseFull f := by
    unfold preBase
    simp only [hpyor, hsplit]
    exact preBase_pipeline_fix hall hhead hlast
  have hfull2 : sanitizedBaseFull (sanitize_filename f m)
      = sanitizedBaseFull f := by
    show (if preBase (sanitize_filename f m) = [] then "file".data
          else preBase (sanitize_filename f m)) = sanitizedBaseFull f
    rw [hpre, if_neg hne]
  have hbase2 : sanitizedBase (sanitize_filename f m) m
      = sanitizedBaseFull f := by
    unfold sanitizedBase
    rw [hfull2]
    exact List.take_of_length_le hlen
  have hext2 : sanitizedExt (sanitize_filename f m) = sanitizedExt f := by
    rcases sanitizedExt_spec f with he | ⟨he, hxne, hxall⟩
    · have hp : preExt (sanitize_filename f m) = [] := by
        unfold preExt
        simp only [hpyor, hsplit, he]
        rfl
      show (if preExt (sanitize_filename f m) = [] then []
            else '.' :: preExt (sanitize_filename f m)) = sanitizedExt f
      rw [if_pos hp, he]
    · have hasc : ∀ c ∈ '.' :: preExt f, c.toNat < 128 := by
        intro c hc
        rcases List.mem_cons.mp hc with hc | hc
        · rw [hc]; decide
        · have h2 := isLowerAlnum_iff.mp (hxall c hc)
          omega
      have hnup : ∀ c ∈ '.' :: preExt f, isUpperAZ c = false := by
        intro c hc
        rcases List.mem_cons.mp hc with hc | hc
        · rw [hc]; decide
        · rw [Bool.eq_false_iff]
          intro hu
          rcases isUpperAZ_iff.mp hu with ⟨h1, h2⟩
          have h3 := isLowerAlnum_iff.mp (hxall c hc)
          omega
      have hp : preExt (sanitize_filename f m) = preExt f := by
        unfold preExt
        simp only [hpyor, hsplit, he]
        rw [pyAsciiFold_id hasc, map_pyLowerAscii_id hnup, List.filter_cons,
          if_neg (by decide)]
        exact List.filter_eq_self.mpr hxall
      show (if preExt (sanitize_filename f m) = [] then []
            else '.' :: preExt (sanitize_filename f m)) = sanitizedExt f
      rw [hp, if_neg hxne, he]
  show String.mk (sanitizedBase (sanitize_filename f m) m
      ++ sanitizedExt (sanitize_filename f m))
    = String.mk (sanitizedBase f m ++ sanitizedExt f)
  rw [hbase2, hext2, hbase]

/-- C8 witness: a concrete input whose cleaned base (`"my-file"`) fits in
120 characters and contains no dot. -/
theorem sanitize_filename_idempotent_witness :
    sanitize_filename (sanitize_filename "My File.TXT" 120) 120
      = sanitize_filename "My File.TXT" 120 :=
  sanitize_filename_idempotent_amended "My File.TXT" 120 (by decide) (by decide)

end ImageHosting
